import Mathlib

/-!
# A shallow embedding of Bear's output filter (`src/filter.c`)

Bear records compiler invocations; `filter.c` decides, for each observed
invocation (argument vector plus working directory), whether it is a compiler
call and which argument is the source file being compiled.

This file embeds the data model and the functions of `filter.c` in Lean:

* `regex_t` — a compiled POSIX extended regular expression, abstracted as its
  matching predicate on input strings (the regex engine, `regcomp`/`regexec`,
  is the C library, external to the repository);
* `regex_list_t`, `rmatch` — the pattern-set type and the `match` function;
* `bear_output_filter_t`, `bear_message_t` — the filter triple and the
  invocation record;
* `fix_path` — the path normalizer;
* `scan_cmd`, `bear_filter_source_file` — the classification scan;
* `compile` / `release` — the resource model of pattern-set construction and
  teardown (lengths and the `regexs` pointer, with the release-call trace made
  explicit);
* `scan_cmd_st`, `bear_filter_source_file_st` — the state-passing form of the
  classifier, recording that the filter is never written through.

The theorems settle the specification's claims about this code.
-/

set_option autoImplicit false

namespace BearFilter

/-- A compiled POSIX extended regular expression (`regex_t`), abstracted as
its matching predicate: `r input = true` means `regexec` reports a match of
the pattern somewhere within `input`.  The regex engine itself is the C
library, not part of the repository, so it stays abstract here. -/
abbrev regex_t : Type := String → Bool

/-- `struct regex_list_t`: an ordered list of compiled regular expressions.
The C struct stores `length` and a pointer `regexs`; behaviourally it is the
ordered list of compiled patterns. -/
abbrev regex_list_t : Type := List regex_t

/-- Embeds `static int match(regex_list_t const *, char const *)`:
try the compiled patterns in order, return 1 (`true`) at the first one whose
`regexec` succeeds, 0 (`false`) after the loop.  (Named `rmatch` because
`match` is a Lean keyword.) -/
def rmatch : regex_list_t → String → Bool
  | [], _ => false
  | ot :: rest, input => if ot input then true else rmatch rest input

/-- `struct bear_output_filter_t`: the triple of pattern sets. -/
structure bear_output_filter_t : Type where
  compilers : regex_list_t
  source_files : regex_list_t
  cancel_parameters : regex_list_t

/-- The part of `bear_message_t` that `bear_filter_source_file` reads:
the argument vector `cmd` (a NULL `cmd` and an empty argv both embed as the
empty list) and the working directory `cwd`. -/
structure bear_message_t : Type where
  cmd : List String
  cwd : String

/-- Embeds `static char const * fix_path(char const * file, char const * cwd)`:
if `file[0]` is `'/'` the file is returned unchanged (the C code returns a
`strdup` copy), otherwise the result of `asprintf("%s/%s", cwd, file)`. -/
def fix_path (file : String) (cwd : String) : String :=
  if file.front = '/' then file else cwd ++ "/" ++ file

/-- The argument loop of `bear_filter_source_file`: `result` is the candidate
slot (`0`/`none` initially).  Per argument: if no candidate is set and the
argument matches `source_files`, the resolved path becomes the candidate;
otherwise, if the argument matches `cancel_parameters`, the candidate is
freed and the loop breaks with no result; otherwise the loop continues. -/
def scan_cmd (filter : bear_output_filter_t) (cwd : String) :
    Option String → List String → Option String
  | result, [] => result
  | result, a :: rest =>
    if result.isNone && rmatch filter.source_files a then
      scan_cmd filter cwd (some (fix_path a cwd)) rest
    else if rmatch filter.cancel_parameters a then
      none
    else
      scan_cmd filter cwd result rest

/-- Embeds `char const * bear_filter_source_file(bear_output_filter_t const *,
bear_message_t const *)`: if `cmd` is present, non-empty, and its first
element matches the `compilers` set, scan the whole argument vector
(starting at `cmd[0]` itself) with `scan_cmd`; otherwise return NULL
(`none`). -/
def bear_filter_source_file (filter : bear_output_filter_t)
    (e : bear_message_t) : Option String :=
  match e.cmd with
  | [] => none
  | c0 :: rest =>
    if rmatch filter.compilers c0 then
      scan_cmd filter e.cwd none (c0 :: rest)
    else
      none

/-! ## Resource model of `compile` and `release`

`compile` fills `prepared->length` and, only when the length is non-zero,
mallocs and fills `prepared->regexs`; when the configured array is empty it
returns early and `regexs` keeps the indeterminate contents of the freshly
malloc'd filter struct.  `release` calls `regfree` on each of the `length`
compiled patterns and then `free(prepared->regexs)` unconditionally. -/

/-- The state of the `regexs` field of a `regex_list_t` after `compile`:
either never assigned (`compile` returned early on a zero-length array, the
field keeps the indeterminate contents of the malloc'd filter struct), or a
malloc'd array of `n` compiled patterns. -/
inductive regexs_ptr : Type where
  | uninit : regexs_ptr
  | alloc : Nat → regexs_ptr
deriving DecidableEq, Repr

/-- The fields of `struct regex_list_t` that `compile` writes and `release`
reads: the pattern count and the state of the `regexs` pointer. -/
structure regex_list_res : Type where
  length : Nat
  regexs : regexs_ptr
deriving DecidableEq, Repr

/-- Embeds `static void compile(config_setting_t const *, regex_list_t *)`
at the resource level: `length` is set to the array's length; on a zero
length the function returns before touching `regexs` (leaving it
indeterminate), otherwise `regexs` is a malloc'd array of that many compiled
patterns.  (Pattern-compilation failure aborts the process and is outside
this model.) -/
def compile (patterns : List String) : regex_list_res :=
  if patterns.length = 0 then
    { length := 0, regexs := regexs_ptr.uninit }
  else
    { length := patterns.length, regexs := regexs_ptr.alloc patterns.length }

/-- One deallocation call performed by `release`: a `regfree` of the
compiled pattern at a given index, or the final `free` of the `regexs`
pointer value. -/
inductive release_event : Type where
  | regfree : Nat → release_event
  | free_call : regexs_ptr → release_event
deriving DecidableEq, Repr

/-- Embeds `static void release(regex_list_t *)` as the trace of
deallocation calls it performs: `regfree(prepared->regexs + idx)` for each
`idx` from `0` to `length - 1`, followed unconditionally by
`free(prepared->regexs)`. -/
def release (prepared : regex_list_res) : List release_event :=
  ((List.range prepared.length).map release_event.regfree)
    ++ [release_event.free_call prepared.regexs]

/-! ## State-passing form of the classifier

The C classifier receives the filter through a `const` pointer and its body
contains no store through it; the state-passing translation therefore
threads the filter through every step and returns it unchanged. -/

/-- The argument loop of `bear_filter_source_file` in state-passing form:
alongside the verdict it returns the filter state at exit.  No branch of the
C loop writes through the filter pointer, so every exit returns the filter
it was given. -/
def scan_cmd_st (filter : bear_output_filter_t) (cwd : String) :
    Option String → List String → Option String × bear_output_filter_t
  | result, [] => (result, filter)
  | result, a :: rest =>
    if result.isNone && rmatch filter.source_files a then
      scan_cmd_st filter cwd (some (fix_path a cwd)) rest
    else if rmatch filter.cancel_parameters a then
      (none, filter)
    else
      scan_cmd_st filter cwd result rest

/-- `bear_filter_source_file` in state-passing form: the verdict together
with the filter state after the call. -/
def bear_filter_source_file_st (filter : bear_output_filter_t)
    (e : bear_message_t) : Option String × bear_output_filter_t :=
  match e.cmd with
  | [] => (none, filter)
  | c0 :: rest =>
    if rmatch filter.compilers c0 then
      scan_cmd_st filter e.cwd none (c0 :: rest)
    else
      (none, filter)

/-! ## Concrete pattern sets and invocations

Concrete compiled patterns used to instantiate the theorems: each models a
POSIX extended regular expression from the specification's end-to-end
scenarios (`^gcc$`, `\.c$`-style source names, `^-E$`). -/

/-- Models the compiled pattern `^gcc$`. -/
def gccOnly : regex_t := fun s => s == "gcc"

/-- Models the compiled pattern `^foo\.c$`. -/
def fooC : regex_t := fun s => s == "foo.c"

/-- Models the compiled pattern `^gcc$|^foo\.c$`. -/
def gccOrFooC : regex_t := fun s => s == "gcc" || s == "foo.c"

/-- Models the compiled pattern `^-E$`. -/
def dashE : regex_t := fun s => s == "-E"

/-- The specification's end-to-end filter: compilers `[^gcc$]`, source files
`[^foo\.c$]`, cancel parameters `[^-E$]`. -/
def specF : bear_output_filter_t :=
  { compilers := [gccOnly], source_files := [fooC], cancel_parameters := [dashE] }

/-- The specification's end-to-end invocation `[gcc, -c, foo.c]` in `/home/u`. -/
def specE : bear_message_t := { cmd := ["gcc", "-c", "foo.c"], cwd := "/home/u" }

/-- A filter whose `source_files` set also matches the compiler name `gcc`. -/
def c1F : bear_output_filter_t :=
  { compilers := [gccOnly], source_files := [gccOrFooC], cancel_parameters := [] }

/-- A filter whose `cancel_parameters` set matches the source-file argument
itself. -/
def c3F : bear_output_filter_t :=
  { compilers := [gccOnly], source_files := [fooC], cancel_parameters := [fooC] }

/-- The invocation `[gcc, foo.c]` in `/home/u`. -/
def twoArgE : bear_message_t := { cmd := ["gcc", "foo.c"], cwd := "/home/u" }

/-! ## Lemmas about the scan loop -/

/-- Once a candidate is set, the source-file branch is disabled; if no
remaining argument matches `cancel_parameters`, the scan returns the
candidate. -/
theorem scan_cmd_some_keep (F : bear_output_filter_t) (cwd r : String) :
    ∀ l : List String, (∀ x ∈ l, rmatch F.cancel_parameters x = false) →
      scan_cmd F cwd (some r) l = some r
  | [], _ => rfl
  | b :: rest, h => by
    have hcb : rmatch F.cancel_parameters b = false := h b (by simp)
    simp only [scan_cmd, Option.isNone_some, Bool.false_and, Bool.false_eq_true,
      if_false, hcb, if_neg]
    exact scan_cmd_some_keep F cwd r rest (fun x hx => h x (by simp [hx]))

/-- Once a candidate is set, any remaining `cancel_parameters` match discards
it and returns no result. -/
theorem scan_cmd_some_cancel (F : bear_output_filter_t) (cwd r : String) :
    ∀ l : List String, (∃ x ∈ l, rmatch F.cancel_parameters x = true) →
      scan_cmd F cwd (some r) l = none
  | [], h => by simp at h
  | b :: rest, h => by
    cases hcb : rmatch F.cancel_parameters b with
    | true => simp [scan_cmd, hcb]
    | false =>
      obtain ⟨x, hx, hcx⟩ := h
      have hxrest : x ∈ rest := by
        rcases List.mem_cons.mp hx with rfl | h2
        · rw [hcb] at hcx; exact absurd hcx (by simp)
        · exact h2
      simp only [scan_cmd, Option.isNone_some, Bool.false_and, Bool.false_eq_true,
        if_false, hcb, if_neg]
      exact scan_cmd_some_cancel F cwd r rest ⟨x, hxrest, hcx⟩

/-- Arguments matching neither `source_files` nor `cancel_parameters` are
skipped by the scan while no candidate is set. -/
theorem scan_cmd_none_skip (F : bear_output_filter_t) (cwd : String) :
    ∀ l l' : List String,
      (∀ x ∈ l, rmatch F.source_files x = false ∧ rmatch F.cancel_parameters x = false) →
      scan_cmd F cwd none (l ++ l') = scan_cmd F cwd none l'
  | [], _, _ => rfl
  | b :: rest, l', h => by
    obtain ⟨hsb, hcb⟩ := h b (by simp)
    simp only [List.cons_append, scan_cmd, Option.isNone_none, Bool.true_and, hsb,
      Bool.false_eq_true, if_false, hcb, if_neg]
    exact scan_cmd_none_skip F cwd rest l' (fun x hx => h x (by simp [hx]))

/-- If some argument matches `cancel_parameters` and the candidate-setting
branch cannot claim it (it does not match `source_files`, or an earlier
argument already matched `source_files` or `cancel_parameters`), the scan
from the empty candidate returns no result. -/
theorem scan_cmd_cancel_core (F : bear_output_filter_t) (cwd a : String)
    (hc : rmatch F.cancel_parameters a = true) :
    ∀ pre post : List String,
      (rmatch F.source_files a = false ∨
        ∃ x ∈ pre, rmatch F.source_files x = true ∨ rmatch F.cancel_parameters x = true) →
      scan_cmd F cwd none (pre ++ a :: post) = none
  | [], post, hside => by
    have hsa : rmatch F.source_files a = false := by
      rcases hside with h | ⟨x, hx, _⟩
      · exact h
      · simp at hx
    simp [scan_cmd, hsa, hc]
  | b :: pre, post, hside => by
    cases hsb : rmatch F.source_files b with
    | true =>
      simp only [List.cons_append, scan_cmd, Option.isNone_none, Bool.true_and, hsb, if_pos]
      exact scan_cmd_some_cancel F cwd _ (pre ++ a :: post) ⟨a, by simp, hc⟩
    | false =>
      cases hcb : rmatch F.cancel_parameters b with
      | true => simp [scan_cmd, hsb, hcb]
      | false =>
        simp only [List.cons_append, scan_cmd, Option.isNone_none, Bool.true_and, hsb,
          Bool.false_eq_true, if_false, hcb, if_neg]
        refine scan_cmd_cancel_core F cwd a hc pre post ?_
        rcases hside with h | ⟨x, hx, hmx⟩
        · exact Or.inl h
        · rcases List.mem_cons.mp hx with rfl | hx2
          · rcases hmx with h1 | h1
            · rw [hsb] at h1; exact absurd h1 (by simp)
            · rw [hcb] at h1; exact absurd h1 (by simp)
          · exact Or.inr ⟨x, hx2, hmx⟩

/-- A scan that starts with a candidate and finishes with a result finished
with that same candidate, and no scanned argument matched
`cancel_parameters`. -/
theorem scan_cmd_some_eq_some (F : bear_output_filter_t) (cwd r : String) :
    ∀ (l : List String) (p : String), scan_cmd F cwd (some r) l = some p →
      p = r ∧ ∀ y ∈ l, rmatch F.cancel_parameters y = false
  | [], p, h => ⟨(Option.some.inj h).symm, by simp⟩
  | b :: rest, p, h => by
    cases hcb : rmatch F.cancel_parameters b with
    | true => simp [scan_cmd, hcb] at h
    | false =>
      have h' : scan_cmd F cwd (some r) rest = some p := by
        simpa only [scan_cmd, Option.isNone_some, Bool.false_and, Bool.false_eq_true,
          if_false, hcb, if_neg] using h
      obtain ⟨hp, hall⟩ := scan_cmd_some_eq_some F cwd r rest p h'
      refine ⟨hp, fun y hy => ?_⟩
      rcases List.mem_cons.mp hy with rfl | hy2
      · exact hcb
      · exact hall y hy2

/-- A scan from the empty candidate that produces a result took the earliest
`source_files`-matching argument: every argument before it matched neither
set, and no argument after it matched `cancel_parameters`. -/
theorem scan_cmd_none_eq_some (F : bear_output_filter_t) (cwd : String) :
    ∀ (l : List String) (p : String), scan_cmd F cwd none l = some p →
      ∃ pre x post, l = pre ++ x :: post ∧
        rmatch F.source_files x = true ∧
        p = fix_path x cwd ∧
        (∀ y ∈ pre, rmatch F.source_files y = false ∧
          rmatch F.cancel_parameters y = false) ∧
        ∀ y ∈ post, rmatch F.cancel_parameters y = false
  | [], p, h => by simp [scan_cmd] at h
  | b :: rest, p, h => by
    cases hsb : rmatch F.source_files b with
    | true =>
      have h' : scan_cmd F cwd (some (fix_path b cwd)) rest = some p := by
        simpa only [scan_cmd, Option.isNone_none, Bool.true_and, hsb, if_pos] using h
      obtain ⟨hp, hall⟩ := scan_cmd_some_eq_some F cwd (fix_path b cwd) rest p h'
      exact ⟨[], b, rest, by simp, hsb, hp, by simp, hall⟩
    | false =>
      cases hcb : rmatch F.cancel_parameters b with
      | true => simp [scan_cmd, hsb, hcb] at h
      | false =>
        have h' : scan_cmd F cwd none rest = some p := by
          simpa only [scan_cmd, Option.isNone_none, Bool.true_and, hsb,
            Bool.false_eq_true, if_false, hcb, if_neg] using h
        obtain ⟨pre, x, post, hsplit, hx, hp, hpre, hpost⟩ :=
          scan_cmd_none_eq_some F cwd rest p h'
        refine ⟨b :: pre, x, post, by simp [hsplit], hx, hp, fun y hy => ?_, hpost⟩
        rcases List.mem_cons.mp hy with rfl | hy2
        · exact ⟨hsb, hcb⟩
        · exact hpre y hy2

/-- If the whole-argument scan yields no result, the classifier yields none,
whatever the compiler check says. -/
theorem bear_none_of_scan_none (F : bear_output_filter_t) (e : bear_message_t)
    (h : scan_cmd F e.cwd none e.cmd = none) :
    bear_filter_source_file F e = none := by
  obtain ⟨cmd, cwd⟩ := e
  cases cmd with
  | nil => rfl
  | cons c0 rest =>
    by_cases hc : rmatch F.compilers c0 = true
    · simpa only [bear_filter_source_file, hc, if_pos] using h
    · simp [bear_filter_source_file, hc]

/-- The state-passing scan computes the same verdict as `scan_cmd` and
returns the filter unchanged. -/
theorem scan_cmd_st_eq (F : bear_output_filter_t) (cwd : String) :
    ∀ (l : List String) (res : Option String),
      scan_cmd_st F cwd res l = (scan_cmd F cwd res l, F)
  | [], _ => rfl
  | b :: rest, res => by
    by_cases h1 : (res.isNone && rmatch F.source_files b) = true
    · simp only [scan_cmd_st, scan_cmd, if_pos h1]
      exact scan_cmd_st_eq F cwd rest _
    · by_cases h2 : rmatch F.cancel_parameters b = true
      · simp only [scan_cmd_st, scan_cmd, if_neg h1, if_pos h2]
      · simp only [scan_cmd_st, scan_cmd, if_neg h1, if_neg h2]
        exact scan_cmd_st_eq F cwd rest _

/-! ## The claims -/

/-- C1 (counterexample): the claim fails because the scan starts at the
program name itself.  With compilers `[^gcc$]`, source files
`[^gcc$|^foo\.c$]`, no cancel patterns, and argv `[gcc, foo.c]` in
`/home/u`: the first argument matches `compilers`, exactly one later
argument (`foo.c`) matches `source_files`, no argument matches
`cancel_parameters` — yet the verdict is `/home/u/gcc` (the program name,
which also matches `source_files`, is taken as the candidate), not
`/home/u/foo.c`. -/
theorem claim_c1_counterexample :
    rmatch c1F.compilers "gcc" = true ∧
    rmatch c1F.source_files "foo.c" = true ∧
    (∀ y ∈ twoArgE.cmd, rmatch c1F.cancel_parameters y = false) ∧
    bear_filter_source_file c1F twoArgE ≠ some (fix_path "foo.c" twoArgE.cwd) ∧
    bear_filter_source_file c1F twoArgE = some (fix_path "gcc" twoArgE.cwd) := by
  decide

/-- C1 (amended): if the first argument matches `compilers` but not
`source_files`, exactly one later argument matches `source_files`, and no
argument matches `cancel_parameters`, then the verdict is that later
argument resolved to an absolute path against the invocation's working
directory. -/
theorem claim_c1_unique_source_verdict (F : bear_output_filter_t)
    (cwd c0 x : String) (pre post : List String)
    (hcomp : rmatch F.compilers c0 = true)
    (hc0 : rmatch F.source_files c0 = false)
    (hx : rmatch F.source_files x = true)
    (hpre : ∀ y ∈ pre, rmatch F.source_files y = false)
    (hpost : ∀ y ∈ post, rmatch F.source_files y = false)
    (hcancel : ∀ y ∈ c0 :: (pre ++ x :: post), rmatch F.cancel_parameters y = false) :
    bear_filter_source_file F ⟨c0 :: (pre ++ x :: post), cwd⟩ = some (fix_path x cwd) := by
  have hcc0 : rmatch F.cancel_parameters c0 = false := hcancel c0 (by simp)
  simp only [bear_filter_source_file, hcomp, if_pos]
  simp only [scan_cmd, Option.isNone_none, Bool.true_and, hc0, Bool.false_eq_true,
    if_false, hcc0, if_neg]
  rw [scan_cmd_none_skip F cwd pre (x :: post)
    (fun y hy => ⟨hpre y hy, hcancel y (by simp [hy])⟩)]
  simp only [scan_cmd, Option.isNone_none, Bool.true_and, hx, if_pos]
  exact scan_cmd_some_keep F cwd (fix_path x cwd) post
    (fun y hy => hcancel y (by simp [hy]))

/-- C1 (witness): the specification's end-to-end scenario — compilers
`[^gcc$]`, source files `[^foo\.c$]`, cancel `[^-E$]`, argv
`[gcc, -c, foo.c]`, cwd `/home/u` — yields `/home/u/foo.c`. -/
theorem claim_c1_unique_source_verdict_witness :
    bear_filter_source_file specF ⟨"gcc" :: (["-c"] ++ "foo.c" :: []), "/home/u"⟩ =
      some (fix_path "foo.c" "/home/u") :=
  claim_c1_unique_source_verdict specF "/home/u" "gcc" "foo.c" ["-c"] []
    (by decide) (by decide) (by decide) (by decide) (by decide) (by decide)

/-- C2: an invocation with no arguments, or whose first argument matches no
`compilers` pattern, is classified as none; the `source_files` and
`cancel_parameters` sets have no influence (any filter sharing the same
`compilers` set gives the same none verdict). -/
theorem claim_c2_no_compiler_none (F F2 : bear_output_filter_t) (e : bear_message_t)
    (hsame : F2.compilers = F.compilers)
    (h : e.cmd = [] ∨ ∃ c0 rest, e.cmd = c0 :: rest ∧ rmatch F.compilers c0 = false) :
    bear_filter_source_file F e = none ∧ bear_filter_source_file F2 e = none := by
  rcases h with h0 | ⟨c0, rest, hcmd, hc⟩
  · constructor <;> simp [bear_filter_source_file, h0]
  · constructor <;> simp [bear_filter_source_file, hcmd, hc, hsame]

/-- C2 (witness): `[clang, foo.c]` under the `^gcc$` compilers set is none,
for the specification filter and for a filter with emptied `source_files`
and `cancel_parameters`. -/
theorem claim_c2_no_compiler_none_witness :
    bear_filter_source_file specF ⟨["clang", "foo.c"], "/x"⟩ = none ∧
    bear_filter_source_file ⟨[gccOnly], [], []⟩ ⟨["clang", "foo.c"], "/x"⟩ = none :=
  claim_c2_no_compiler_none specF ⟨[gccOnly], [], []⟩ ⟨["clang", "foo.c"], "/x"⟩
    rfl (Or.inr ⟨"clang", ["foo.c"], rfl, by decide⟩)

/-- C3 (counterexample): the claim fails when the only
`cancel_parameters`-matching argument is itself taken as the candidate.
With compilers `[^gcc$]`, source files `[^foo\.c$]`, cancel `[^foo\.c$]`
and argv `[gcc, foo.c]`: the argument `foo.c` matches `cancel_parameters`,
yet the verdict is `/home/u/foo.c`, not none — the candidate branch fires
first and the cancel test is skipped for that argument. -/
theorem claim_c3_counterexample :
    rmatch c3F.compilers "gcc" = true ∧
    "foo.c" ∈ twoArgE.cmd ∧
    rmatch c3F.cancel_parameters "foo.c" = true ∧
    bear_filter_source_file c3F twoArgE = some "/home/u/foo.c" ∧
    bear_filter_source_file c3F twoArgE ≠ none := by
  decide

/-- C3 (amended): if some argument `a` matches `cancel_parameters` and the
candidate branch cannot claim it (`a` does not match `source_files`, or some
earlier argument matches `source_files` or `cancel_parameters`), the verdict
is none, even when an earlier argument had been taken as the candidate; and
the arguments after `a` never influence the verdict (the scan stops at the
cancel match). -/
theorem claim_c3_cancel_none (F : bear_output_filter_t) (cwd a : String)
    (pre post : List String)
    (hcomp : rmatch F.compilers ((pre ++ [a]).headI) = true)
    (hc : rmatch F.cancel_parameters a = true)
    (hside : rmatch F.source_files a = false ∨
      ∃ x ∈ pre, rmatch F.source_files x = true ∨ rmatch F.cancel_parameters x = true) :
    bear_filter_source_file F ⟨pre ++ a :: post, cwd⟩ = none ∧
    ∀ post2, bear_filter_source_file F ⟨pre ++ a :: post2, cwd⟩ = none := by
  have main : ∀ post2, bear_filter_source_file F ⟨pre ++ a :: post2, cwd⟩ = none :=
    fun post2 => bear_none_of_scan_none F ⟨pre ++ a :: post2, cwd⟩
      (scan_cmd_cancel_core F cwd a hc pre post2 hside)
  exact ⟨main post, main⟩

/-- C3 (witness): the specification scenario `[gcc, foo.c, -E]` is cancelled
to none even though `foo.c` had been taken as the candidate, and the verdict
stays none whatever follows the `-E` argument. -/
theorem claim_c3_cancel_none_witness :
    bear_filter_source_file specF ⟨["gcc", "foo.c"] ++ "-E" :: [], "/home/u"⟩ = none ∧
    bear_filter_source_file specF ⟨["gcc", "foo.c"] ++ "-E" :: ["bar.c"], "/home/u"⟩ = none :=
  ⟨(claim_c3_cancel_none specF "/home/u" "-E" ["gcc", "foo.c"] []
      (by decide) (by decide) (Or.inl (by decide))).1,
   (claim_c3_cancel_none specF "/home/u" "-E" ["gcc", "foo.c"] []
      (by decide) (by decide) (Or.inl (by decide))).2 ["bar.c"]⟩

/-- C4: the candidate branch and the cancel branch are mutually exclusive
per argument.  For an argument matching both `source_files` and
`cancel_parameters`: while no candidate is set, the argument is taken as the
candidate and the scan continues (no cancellation in that iteration); once a
candidate is set, the `source_files` branch is disabled and the same
argument triggers the cancellation instead. -/
theorem claim_c4_branch_exclusive (F : bear_output_filter_t) (cwd a : String)
    (rest : List String)
    (hsf : rmatch F.source_files a = true)
    (hcp : rmatch F.cancel_parameters a = true) :
    scan_cmd F cwd none (a :: rest) = scan_cmd F cwd (some (fix_path a cwd)) rest ∧
    ∀ r : String, scan_cmd F cwd (some r) (a :: rest) = none := by
  constructor
  · simp [scan_cmd, hsf]
  · intro r; simp [scan_cmd, hcp]

/-- C4 (witness): with source files and cancel both `[^foo\.c$]`, scanning
`[foo.c]` from the empty candidate takes `foo.c` as the candidate, while
scanning it with a candidate already set cancels to none. -/
theorem claim_c4_branch_exclusive_witness :
    scan_cmd c3F "/w" none ["foo.c"] =
      scan_cmd c3F "/w" (some (fix_path "foo.c" "/w")) [] ∧
    scan_cmd c3F "/w" (some "/z/a.c") ["foo.c"] = none :=
  ⟨(claim_c4_branch_exclusive c3F "/w" "foo.c" [] (by decide) (by decide)).1,
   (claim_c4_branch_exclusive c3F "/w" "foo.c" [] (by decide) (by decide)).2 "/z/a.c"⟩

/-- C5: `match` over a pattern set is true iff some pattern of the set
matches the input (each compiled pattern's own semantics being `regexec`'s
unanchored search), and the empty pattern set matches no input. -/
theorem claim_c5_rmatch_iff (prepared : regex_list_t) (input : String) :
    (rmatch prepared input = true ↔ ∃ p ∈ prepared, p input = true) ∧
    rmatch [] input = false := by
  refine ⟨?_, rfl⟩
  induction prepared with
  | nil => simp [rmatch]
  | cons ot rest ih =>
    cases hot : ot input with
    | true => simp [rmatch, hot]
    | false => simp [rmatch, hot, ih]

/-- C6: `fix_path` returns the file unchanged when it begins with `/`, and
otherwise returns the working directory, a `/` separator, and the file,
concatenated. -/
theorem claim_c6_fix_path (file cwd : String) :
    (file.front = '/' → fix_path file cwd = file) ∧
    (file.front ≠ '/' → fix_path file cwd = cwd ++ "/" ++ file) := by
  constructor
  · intro h; simp [fix_path, h]
  · intro h; simp [fix_path, h]

/-- C6 (witness): the specification's examples,
`resolve("/a/b.c", "/x/y") = /a/b.c` and `resolve("b.c", "/x/y") = /x/y/b.c`. -/
theorem claim_c6_fix_path_witness :
    fix_path "/a/b.c" "/x/y" = "/a/b.c" ∧ fix_path "b.c" "/x/y" = "/x/y/b.c" :=
  ⟨(claim_c6_fix_path "/a/b.c" "/x/y").1 (by decide),
   (claim_c6_fix_path "b.c" "/x/y").2 (by decide)⟩

/-- C7: on a zero-length pattern set, `compile` returns before assigning the
`regexs` field, yet `release` still performs `free(prepared->regexs)` on
that indeterminate pointer — destroying an empty set is not the no-op the
specification states (an undefined-behavior free), though it performs no
`regfree`. -/
theorem claim_c7_release_empty_not_noop :
    release (compile []) = [release_event.free_call regexs_ptr.uninit] ∧
    release (compile []) ≠ [] := by
  decide

/-- C8: classification is deterministic — the same filter and the same
invocation always produce the same verdict. -/
theorem claim_c8_deterministic (F F2 : bear_output_filter_t) (e e2 : bear_message_t)
    (hF : F = F2) (he : e = e2) :
    bear_filter_source_file F e = bear_filter_source_file F2 e2 := by
  rw [hF, he]

/-- C8 (witness): classifying the specification scenario twice yields the
same verdict. -/
theorem claim_c8_deterministic_witness :
    bear_filter_source_file specF specE = bear_filter_source_file specF specE :=
  claim_c8_deterministic specF specF specE specE rfl rfl

/-- C9: classification never modifies the filter — in the state-passing form
of `bear_filter_source_file`, all three pattern sets are returned unchanged,
and the verdict agrees with the direct form. -/
theorem claim_c9_filter_unchanged (F : bear_output_filter_t) (e : bear_message_t) :
    (bear_filter_source_file_st F e).2.compilers = F.compilers ∧
    (bear_filter_source_file_st F e).2.source_files = F.source_files ∧
    (bear_filter_source_file_st F e).2.cancel_parameters = F.cancel_parameters ∧
    (bear_filter_source_file_st F e).1 = bear_filter_source_file F e := by
  have h : bear_filter_source_file_st F e = (bear_filter_source_file F e, F) := by
    obtain ⟨cmd, cwd⟩ := e
    cases cmd with
    | nil => rfl
    | cons c0 rest =>
      by_cases hc : rmatch F.compilers c0 = true
      · simp only [bear_filter_source_file_st, bear_filter_source_file, hc, if_pos]
        exact scan_cmd_st_eq F cwd (c0 :: rest) none
      · simp [bear_filter_source_file_st, bear_filter_source_file, hc]
  rw [h]
  exact ⟨rfl, rfl, rfl, rfl⟩

/-- C10: a non-none verdict is the resolution, against the working
directory, of the earliest argument of the whole argument vector (the
program name included) that matches `source_files`; every argument strictly
before it matches neither `source_files` nor `cancel_parameters`, and no
argument strictly after it matches `cancel_parameters`. -/
theorem claim_c10_verdict_characterization (F : bear_output_filter_t)
    (e : bear_message_t) (p : String)
    (h : bear_filter_source_file F e = some p) :
    ∃ pre x post, e.cmd = pre ++ x :: post ∧
      rmatch F.source_files x = true ∧
      p = fix_path x e.cwd ∧
      (∀ y ∈ pre, rmatch F.source_files y = false ∧
        rmatch F.cancel_parameters y = false) ∧
      ∀ y ∈ post, rmatch F.cancel_parameters y = false := by
  obtain ⟨cmd, cwd⟩ := e
  cases cmd with
  | nil => simp [bear_filter_source_file] at h
  | cons c0 rest =>
    by_cases hc : rmatch F.compilers c0 = true
    · have hscan : scan_cmd F cwd none (c0 :: rest) = some p := by
        simpa only [bear_filter_source_file, hc, if_pos] using h
      exact scan_cmd_none_eq_some F cwd (c0 :: rest) p hscan
    · simp [bear_filter_source_file, hc] at h

/-- C10 (witness): for the specification scenario the verdict
`/home/u/foo.c` decomposes as promised, with `pre = [gcc, -c]`, the matched
argument `foo.c`, and an empty tail. -/
theorem claim_c10_verdict_characterization_witness :
    ∃ pre x post, specE.cmd = pre ++ x :: post ∧
      rmatch specF.source_files x = true ∧
      "/home/u/foo.c" = fix_path x specE.cwd ∧
      (∀ y ∈ pre, rmatch specF.source_files y = false ∧
        rmatch specF.cancel_parameters y = false) ∧
      ∀ y ∈ post, rmatch specF.cancel_parameters y = false :=
  claim_c10_verdict_characterization specF specE "/home/u/foo.c" (by decide)

end BearFilter
